import Mathlib

/-!
Shallow embedding of the fast_log core (src/fast_log.rs and
src/plugin/file_split.rs) together with proofs about the record pipeline,
the split-file appender, retention, and the packer retry loop.

Conventions:
* machine integers are modelled as `Nat`/`Int` (the `i64 as usize` cast in
  `RollingType::do_rolling` is modelled explicitly);
* filesystem and channel effects are modelled by explicit state passing:
  the temp file is a `List Char` plus a cursor, the pack channel is a
  counter of enqueued `LogPack`s, a directory is a `List String` of entry
  names;
* fallible operations whose results the Rust code inspects are modelled by
  `Option`/`Except`; operations whose `Result` the Rust code discards
  (`std::fs::copy`, `file.flush`, `set_len`, `seek`, channel `send`) are
  modelled by the corresponding unconditional state change.
-/

namespace FastLog

/-- `Command` from `crate::appender` as used by `fast_log.rs`:
the three record commands. -/
inductive Command
  | CommandRecord
  | CommandFlush
  | CommandExit
deriving DecidableEq, Repr

/-- `FastLogRecord` from `crate::appender`, restricted to the fields the
pipeline and the split appender inspect (`command`, `args` for identity,
and the `formated` text written by appenders). -/
structure FastLogRecord where
  command : Command
  args : String
  formated : String
deriving DecidableEq, Repr

/-! ## The ingest worker (first coroutine of `init_custom_log`,
src/fast_log.rs lines 180-199) -/

/-- One iteration of the ingest loop body on a successfully received
record `s`, given the current `log_stack` buffer.  Returns the new buffer,
the records sent to the back (Q2) channel by this iteration in order, and
whether the loop terminated (`break`).

Source:
* `CommandExit`: `back_sender.send(s);` then `break`;
* `CommandFlush`: `while let Some(log_record) = log_stack.pop_front() {
  back_sender.send(log_record); }` — the flush record `s` itself is not
  sent;
* otherwise: `log_stack.push_back(s)`. -/
def ingest_step (log_stack : List FastLogRecord) (s : FastLogRecord) :
    List FastLogRecord × List FastLogRecord × Bool :=
  if s.command = Command.CommandExit then (log_stack, [s], true)
  else if s.command = Command.CommandFlush then ([], log_stack, false)
  else (log_stack ++ [s], [], false)

/-- Everything the ingest worker sends to Q2 while consuming a finite
input trace from Q1, starting from buffer `log_stack`. -/
def ingest_run (log_stack : List FastLogRecord) : List FastLogRecord → List FastLogRecord
  | [] => []
  | s :: rest =>
    match ingest_step log_stack s with
    | (st, out, fin) => if fin then out else out ++ ingest_run st rest

/-- A plain record as built by `Logger::log`. -/
def record_of (a : String) : FastLogRecord :=
  { command := Command.CommandRecord, args := a, formated := "" }

/-- The flush control record built by `fast_log::flush()`. -/
def flush_record : FastLogRecord :=
  { command := Command.CommandFlush, args := "flush", formated := "flush" }

/-! ## Logger level (src/fast_log.rs lines 47-67 and 100-102) -/

/-- `log::Level` of the log crate; `as i32` yields the ordinals
Error=1 … Trace=5. -/
inductive Level
  | Error
  | Warn
  | Info
  | Debug
  | Trace
deriving DecidableEq, Repr

/-- The `level as i32` cast used by `Logger::set_level`. -/
def Level.toI32 : Level → Int
  | .Error => 1
  | .Warn => 2
  | .Info => 3
  | .Debug => 4
  | .Trace => 5

/-- The `Logger` state: the `AtomicI32` level field. -/
structure Logger where
  level : Int
deriving DecidableEq, Repr

/-- The static `LOGGER`: `level: AtomicI32::new(1)`. -/
def LOGGER : Logger := { level := 1 }

/-- `Logger::set_level`: stores `level as i32` (the `swap`ped-out old
value is discarded by the source). -/
def Logger.set_level (_l : Logger) (level : Level) : Logger :=
  { level := level.toI32 }

/-- `Logger::get_level`: `none` models the `panic!("error log level!")`
branch. -/
def Logger.get_level (l : Logger) : Option Level :=
  if l.level = 1 then some .Error
  else if l.level = 2 then some .Warn
  else if l.level = 3 then some .Info
  else if l.level = 4 then some .Debug
  else if l.level = 5 then some .Trace
  else none

/-- The logger state after any finite sequence of `set_level` calls
(the only stores to the level field besides the static initializer). -/
def logger_after (calls : List Level) : Logger :=
  calls.foldl Logger.set_level LOGGER

/-! ## The split-file appender (src/plugin/file_split.rs lines 120-227)

The `File` handle is modelled by its byte content (`List Char`) and the
cursor position; the pack channel by a counter of sent `LogPack`s.  The
outcomes of the filesystem calls the code inspects are passed in through
`WriteEnv`; the calls whose `Result` the source discards (`fs::copy`,
`send`, `set_len`, `seek`, `flush`) act unconditionally. -/

/-- Environment outcomes for one `do_log` call: the result of the
`std::fs::copy` inside `send_pack` (its `Result` is discarded by the
source) and the result of `file.write` (`some w` = `Ok(w)` bytes written,
`none` = `Err`). -/
structure WriteEnv where
  copyOk : Bool
  writeRes : Option Nat
deriving DecidableEq, Repr

/-- `FileSplitAppenderData`: `max_split_bytes`, the temp-file handle
(content plus cursor), the cached `temp_bytes`, and the pack channel
modelled as a count of `LogPack`s sent. -/
structure FileSplitAppenderData where
  max_split_bytes : Nat
  file_content : List Char
  file_pos : Nat
  temp_bytes : Nat
  packs_sent : Nat
deriving DecidableEq, Repr

/-- `FileSplitAppenderData::truncate`: `set_len(0)`, `seek(Start(0))`,
`temp_bytes = 0` (the two I/O results are discarded by the source). -/
def FileSplitAppenderData.truncate (d : FileSplitAppenderData) : FileSplitAppenderData :=
  { d with file_content := [], file_pos := 0, temp_bytes := 0 }

/-- `FileSplitAppenderData::send_pack`: copies `temp.log` to the snapshot
path — the `Result` of `std::fs::copy` is discarded, so `_copyOk` is
unused — then sends one `LogPack` and calls `truncate`. -/
def FileSplitAppenderData.send_pack (d : FileSplitAppenderData) (_copyOk : Bool) :
    FileSplitAppenderData :=
  FileSplitAppenderData.truncate { d with packs_sent := d.packs_sent + 1 }

/-- `<FileSplitAppender as LogAppender>::do_log` on the borrowed cell
data: rotate when the record is a Flush or `temp_bytes >=
max_split_bytes`; otherwise write `record.formated`, flush (no-op on the
model), and add the bytes actually written to `temp_bytes`. -/
def FileSplitAppender.do_log (d : FileSplitAppenderData) (env : WriteEnv)
    (record : FastLogRecord) : FileSplitAppenderData :=
  if record.command = Command.CommandFlush ∨ d.max_split_bytes ≤ d.temp_bytes then
    d.send_pack env.copyOk
  else
    match env.writeRes with
    | some w =>
      { d with
        file_content := d.file_content.take d.file_pos ++ record.formated.data.take w
          ++ d.file_content.drop (d.file_pos + w),
        file_pos := d.file_pos + w,
        temp_bytes := d.temp_bytes + w }
    | none => d

/-- `FileSplitAppender::new` restricted to the state fields: `temp_bytes`
is the existing file length when `file.metadata()` succeeds and `0`
otherwise, and the cursor is seeked to `temp_bytes`. -/
def FileSplitAppender.new (max_split_bytes : Nat) (initial_content : List Char)
    (metadataOk : Bool) : FileSplitAppenderData :=
  let temp_bytes := if metadataOk then initial_content.length else 0
  { max_split_bytes := max_split_bytes
    file_content := initial_content
    file_pos := temp_bytes
    temp_bytes := temp_bytes
    packs_sent := 0 }

/-- A `file.write(record.formated.as_bytes())` call can only report at
most `record.formated` many bytes written. -/
def WriteEnv.wf (env : WriteEnv) (record : FastLogRecord) : Prop :=
  ∀ w, env.writeRes = some w → w ≤ record.formated.length

/-- The split-appender state invariant: the cached byte counter and the
cursor both equal the length of the temp file. -/
def splitInv (d : FileSplitAppenderData) : Prop :=
  d.temp_bytes = d.file_content.length ∧ d.file_pos = d.file_content.length

/-- Folding `do_log` over a trace of (environment, record) events. -/
def do_log_trace (d : FileSplitAppenderData) (events : List (WriteEnv × FastLogRecord)) :
    FileSplitAppenderData :=
  events.foldl (fun s e => FileSplitAppender.do_log s e.1 e.2) d

/-! ## Global registry and initialization (src/fast_log.rs lines 20-45
and 166-225)

`LOG_SENDER` is modelled by `slot`, holding the generation number of the
currently installed `LoggerSender` (its sender + filter pair);
`next_id` numbers successive `LoggerSender::new` calls so distinct
installations are distinguishable.  `facade_set` is the global-logger
registration flag of the log crate: per the contract of the log crate,
`log::set_logger` succeeds at most once per process. -/

/-- Process registration state. -/
structure Registry where
  slot : Option Nat
  next_id : Nat
  facade_set : Bool
deriving DecidableEq, Repr

/-- Process start: `LOG_SENDER` is `None`, no facade registered. -/
def Registry.initial : Registry :=
  { slot := none, next_id := 0, facade_set := false }

/-- `set_log`: builds a fresh `LoggerSender` and unconditionally
overwrites the slot (`*w = Some(log)`). -/
def set_log (g : Registry) : Registry :=
  { g with slot := some g.next_id, next_id := g.next_id + 1 }

/-- `log::set_logger` (log crate contract): sets the global logger and
succeeds exactly once; later calls fail and change nothing. -/
def log_set_logger (g : Registry) : Registry × Bool :=
  if g.facade_set then (g, false) else ({ g with facade_set := true }, true)

/-- `init_custom_log` restricted to its registration effects: the empty-
appenders check, then `set_log`, then `log::set_logger`; the returned
`Bool` is `true` for `Ok(wait_group)` and `false` for an `Err`. -/
def init_custom_log (appenders_empty : Bool) (g : Registry) : Registry × Bool :=
  if appenders_empty then (g, false)
  else
    let g1 := set_log g
    let p := log_set_logger g1
    (p.1, p.2)

/-! ## Retention (src/plugin/file_split.rs lines 46-103)

A directory is its list of entry names.  File names compare by
byte-lexicographic order (`OsString::cmp`; UTF-8 byte order agrees with
code-point order), and `Vec::sort_by` is a stable sort, modelled by
`List.insertionSort`. -/

/-- Byte-lexicographic `a ≤ b` on file names. -/
def lexLe : List Char → List Char → Bool
  | [], _ => true
  | _ :: _, [] => false
  | a :: as, b :: bs =>
    if a.toNat < b.toNat then true
    else if b.toNat < a.toNat then false
    else lexLe as bs

/-- The comparator `|a, b| b.file_name().cmp(&a.file_name())`: descending
file-name order. -/
def name_desc (a b : String) : Prop := lexLe b.data a.data = true

instance : DecidableRel name_desc := fun _ _ => instDecidableEqBool _ _

/-- The filter inside `RollingType::read_paths`: an entry is kept unless
`v.ends_with("temp.log") || !v.starts_with("temp")`. -/
def keeps_for_rolling (v : String) : Bool :=
  !(( "temp.log".data.isSuffixOf v.data) || !( "temp".data.isPrefixOf v.data))

/-- `RollingType::read_paths`: collect the entries passing the filter and
sort them by file name descending. -/
def read_paths (dir : List String) : List String :=
  List.insertionSort name_desc (dir.filter keeps_for_rolling)

/-- The `*n as usize` cast applied to the `i64` payload of `KeepNum`. -/
def i64_as_usize (n : Int) : Nat := (n % 2 ^ 64).toNat

/-- `RollingType::do_rolling` in the `KeepNum(n)` arm: walk the sorted
candidate vector with its index and `remove_file` every entry whose index
is `≥ n as usize`. -/
def do_rolling_keep_num (n : Int) (dir : List String) : List String :=
  ((read_paths dir).enum).foldl
    (fun d ix => if i64_as_usize n ≤ ix.1 then d.erase ix.2 else d) dir

/-! ## The packer thread (src/plugin/file_split.rs lines 229-276)

`do_pack` opens the snapshot and invokes `packer.do_pack`; on failure
with `packer.retry() > 0` it re-invokes itself inside a `while let
Err(packs) = do_pack(..)` loop whose counter only advances when the
recursive call returns `Err` — which happens only when the path is empty
or the snapshot cannot be opened.  Filesystem and packer outcomes are
drawn from streams indexed by invocation order: `opens i` is the result
of the `i`-th `OpenOptions::open` and `attempts i` the result of the
`i`-th `packer.do_pack` invocation.  The recursion is fuel-indexed
(`none` = fuel ran out; the source recursion has no intrinsic bound),
with the fuel decreasing on every nested `do_pack` invocation, so the
definitions reduce by structural recursion. -/

/-- Outcome streams for the packer thread. -/
structure PackWorld where
  opens : Nat → Bool
  attempts : Nat → Except Unit Bool

/-- The `while let Err(packs) = do_pack(packer, pack)` loop of `do_pack`,
abstracted over the nested `do_pack` invocation `f` (the recursion one
fuel level down).  `retryCnt` is the `retry` counter (entering at 1);
on an `Err` return it is incremented and the loop breaks once it exceeds
`packer.retry()`.  Returns the open/attempt indices after the loop. -/
def retryLoopAux (f : Nat → Nat → Option (Except Unit Bool × Nat × Nat)) (retryN : Int) :
    Nat → Int → Nat → Nat → Option (Nat × Nat)
  | 0, _, _, _ => none
  | lf + 1, retryCnt, oi, pi =>
    match f oi pi with
    | none => none
    | some (res, oi2, pi2) =>
      if res.isOk then some (oi2, pi2)
      else if retryN < retryCnt + 1 then some (oi2, pi2)
      else retryLoopAux f retryN lf (retryCnt + 1) oi2 pi2

/-- `do_pack(packer, pack)`: empty path or failed open return
`Err(pack)`; otherwise one `packer.do_pack` attempt is made, the retry
loop runs when it failed and `packer.retry() > 0`, and the final result
is computed from the `r` of the **first** attempt: `Ok(b)` when `r` was
`Ok(b)`, `Ok(false)` otherwise.  Returns the result plus the next
open/attempt indices. -/
def doPack (w : PackWorld) (retryN : Int) (path_empty : Bool) (fuel : Nat) :
    Nat → Nat → Option (Except Unit Bool × Nat × Nat) :=
  match fuel with
  | 0 => fun _ _ => none
  | fuel + 1 => fun oi pi =>
    if path_empty then some (Except.error (), oi, pi)
    else if w.opens oi = false then some (Except.error (), oi + 1, pi)
    else
      let r := w.attempts pi
      if r.isOk = false ∧ 0 < retryN then
        match retryLoopAux (doPack w retryN path_empty fuel) retryN fuel 1 (oi + 1) (pi + 1) with
        | none => none
        | some p => some (Except.ok false, p.1, p.2)
      else
        some (Except.ok (match r with | .ok b => b | .error _ => false), oi + 1, pi + 1)

/-- The removal decision of `spawn_saver` for one received pack:
`if let Ok(remove) = remove { if remove { fs::remove_file(..) } }`. -/
def saver_removes : Option (Except Unit Bool × Nat × Nat) → Bool
  | some (Except.ok true, _, _) => true
  | _ => false

/-! ## Theorems -/

lemma get_level_isSome_of_range (l : Logger) (h1 : 1 ≤ l.level) (h5 : l.level ≤ 5) :
    (l.get_level).isSome = true := by
  unfold Logger.get_level
  interval_cases h : l.level <;> simp

lemma level_range_foldl (cs : List Level) :
    ∀ l : Logger, 1 ≤ l.level → l.level ≤ 5 →
      1 ≤ (cs.foldl Logger.set_level l).level ∧ (cs.foldl Logger.set_level l).level ≤ 5 := by
  induction cs with
  | nil => intro l h1 h5; exact ⟨h1, h5⟩
  | cons c cs ih =>
    intro l _ _
    have hrange : 1 ≤ (Logger.set_level l c).level ∧ (Logger.set_level l c).level ≤ 5 := by
      cases c <;> simp [Logger.set_level, Level.toI32]
    simpa using ih (Logger.set_level l c) hrange.1 hrange.2

/-- C10: in every reachable logger state the atomic level field holds a
value in {1,…,5} — it starts at 1 and every store comes from a
`log::Level` ordinal — so `Logger::get_level` never reaches its panic
branch. -/
theorem logger_level_always_valid (calls : List Level) :
    1 ≤ (logger_after calls).level ∧ (logger_after calls).level ≤ 5 ∧
      ((logger_after calls).get_level).isSome = true := by
  have h := level_range_foldl calls LOGGER (by simp [LOGGER]) (by simp [LOGGER])
  exact ⟨h.1, h.2, get_level_isSome_of_range _ h.1 h.2⟩

/-- C1 evaluation: the ingest worker, fed one plain record and then a
Flush, forwards only the plain record to Q2; the Flush control record is
dropped, so it is never delivered to the appenders. -/
theorem ingest_drops_flush_record :
    ingest_run [] [record_of "a", flush_record] = [record_of "a"] ∧
      flush_record ∉ ingest_run [] [record_of "a", flush_record] := by
  constructor
  · rfl
  · decide

/-- C2: a `do_log` call with a Flush record, or with `temp_bytes` at
least `max_split_bytes`, performs exactly one rotation (one `LogPack`
sent, temp file truncated) and returns without writing the record; any
other call appends the written prefix of `record.formated` to the temp
file and `temp_bytes` grows by exactly the number of bytes actually
written — 0 when the write fails. -/
theorem do_log_rotates_or_writes (d : FileSplitAppenderData) (env : WriteEnv)
    (r : FastLogRecord) :
    (r.command = Command.CommandFlush ∨ d.max_split_bytes ≤ d.temp_bytes →
      FileSplitAppender.do_log d env r = d.send_pack env.copyOk ∧
      (FileSplitAppender.do_log d env r).packs_sent = d.packs_sent + 1 ∧
      (FileSplitAppender.do_log d env r).file_content = []) ∧
    (¬(r.command = Command.CommandFlush ∨ d.max_split_bytes ≤ d.temp_bytes) →
      (FileSplitAppender.do_log d env r).packs_sent = d.packs_sent ∧
      (∀ w, env.writeRes = some w → d.file_pos = d.file_content.length →
        (FileSplitAppender.do_log d env r).file_content
          = d.file_content ++ r.formated.data.take w ∧
        (FileSplitAppender.do_log d env r).temp_bytes = d.temp_bytes + w) ∧
      (env.writeRes = none → FileSplitAppender.do_log d env r = d)) := by
  constructor
  · intro h
    simp [FileSplitAppender.do_log, h, FileSplitAppenderData.send_pack,
      FileSplitAppenderData.truncate]
  · intro h
    refine ⟨?_, ?_, ?_⟩
    · cases hw : env.writeRes <;>
        simp [FileSplitAppender.do_log, h, hw]
    · intro w hw hpos
      simp only [FileSplitAppender.do_log, if_neg h, hw]
      refine ⟨?_, by trivial⟩
      rw [hpos, List.take_length, List.drop_eq_nil_of_le (by omega), List.append_nil]
    · intro hw
      simp [FileSplitAppender.do_log, h, hw]

/-- C2 witness: concrete instances of both branches of
`do_log_rotates_or_writes`. -/
theorem do_log_rotates_or_writes_witness :
    (FileSplitAppender.do_log ⟨5, [], 0, 0, 0⟩ ⟨true, some 6⟩ flush_record).packs_sent = 0 + 1 ∧
    (FileSplitAppender.do_log ⟨5, [], 0, 0, 0⟩ ⟨true, some 1⟩ (record_of "a")).packs_sent = 0 :=
  ⟨((do_log_rotates_or_writes ⟨5, [], 0, 0, 0⟩ ⟨true, some 6⟩ flush_record).1
      (Or.inl rfl)).2.1,
   ((do_log_rotates_or_writes ⟨5, [], 0, 0, 0⟩ ⟨true, some 1⟩ (record_of "a")).2
      (by decide)).1⟩

/-- C3 counterexample: with `max_split_bytes = 5`, a first 6-byte record
makes `temp_bytes = 6`; the second record `"bbb"` then triggers a size
rotation (`packs_sent` becomes 1) and is dropped; the next `do_log` call
writes only its own record `"ccc"`, so no byte of `"bbb"` is ever in the
temp file — it is not written by the next call. -/
theorem size_rotation_loses_record :
    (do_log_trace (FileSplitAppender.new 5 [] true)
      [(⟨true, some 6⟩, { command := Command.CommandRecord, args := "", formated := "aaaaaa" })]).temp_bytes
      = 6 ∧
    (do_log_trace (FileSplitAppender.new 5 [] true)
      [(⟨true, some 6⟩, { command := Command.CommandRecord, args := "", formated := "aaaaaa" }),
       (⟨true, some 3⟩, { command := Command.CommandRecord, args := "", formated := "bbb" })]).packs_sent
      = 1 ∧
    (do_log_trace (FileSplitAppender.new 5 [] true)
      [(⟨true, some 6⟩, { command := Command.CommandRecord, args := "", formated := "aaaaaa" }),
       (⟨true, some 3⟩, { command := Command.CommandRecord, args := "", formated := "bbb" }),
       (⟨true, some 3⟩, { command := Command.CommandRecord, args := "", formated := "ccc" })]).file_content
      = "ccc".data ∧
    'b' ∉ (do_log_trace (FileSplitAppender.new 5 [] true)
      [(⟨true, some 6⟩, { command := Command.CommandRecord, args := "", formated := "aaaaaa" }),
       (⟨true, some 3⟩, { command := Command.CommandRecord, args := "", formated := "bbb" }),
       (⟨true, some 3⟩, { command := Command.CommandRecord, args := "", formated := "ccc" })]).file_content := by
  decide

/-- C3 amended: when `do_log` rotates because `temp_bytes ≥
max_split_bytes`, the record passed to that call is discarded, not
deferred: the resulting state is independent of the record and of the
I/O outcomes, the temp file is left empty, and the next `do_log` call (on
a non-Flush record whose write succeeds) leaves the temp file holding
exactly the written bytes of that next record. -/
theorem size_rotation_drops_current_record
    (d : FileSplitAppenderData) (hsize : d.max_split_bytes ≤ d.temp_bytes)
    (env env2 env3 : WriteEnv) (r r2 r3 : FastLogRecord) :
    FileSplitAppender.do_log d env r = FileSplitAppender.do_log d env2 r2 ∧
    (FileSplitAppender.do_log d env r).file_content = [] ∧
    (0 < d.max_split_bytes → r3.command ≠ Command.CommandFlush →
      ∀ w, env3.writeRes = some w →
        (FileSplitAppender.do_log (FileSplitAppender.do_log d env r) env3 r3).file_content
          = r3.formated.data.take w) := by
  have hrot : ∀ (e : WriteEnv) (rr : FastLogRecord),
      FileSplitAppender.do_log d e rr = d.send_pack e.copyOk := by
    intro e rr
    simp [FileSplitAppender.do_log, hsize]
  have hsp : ∀ c : Bool, d.send_pack c
      = FileSplitAppenderData.truncate { d with packs_sent := d.packs_sent + 1 } := by
    intro c; rfl
  refine ⟨by rw [hrot, hrot, hsp, hsp], by rw [hrot, hsp]; rfl, ?_⟩
  intro hpos hr3 w hw
  rw [hrot, hsp]
  simp [FileSplitAppender.do_log, FileSplitAppenderData.truncate, hr3, hw,
    Nat.not_le.mpr hpos]

/-- C3 amended witness: a concrete size-triggered rotation followed by a
successful write of the next record. -/
theorem size_rotation_drops_current_record_witness :
    (FileSplitAppender.do_log
        (FileSplitAppender.do_log ⟨5, "aaaaaa".data, 6, 6, 0⟩ ⟨true, some 3⟩
          (record_of "b"))
        ⟨true, some 0⟩ (record_of "c")).file_content
      = (record_of "c").formated.data.take 0 :=
  (size_rotation_drops_current_record ⟨5, "aaaaaa".data, 6, 6, 0⟩ (by decide)
      ⟨true, some 3⟩ ⟨true, some 3⟩ ⟨true, some 0⟩
      (record_of "b") (record_of "b") (record_of "c")).2.2
    (by decide) (by decide) 0 rfl

/-- C4 counterexample: on a state holding 7 bytes, a rotation whose
`fs::copy` fails still sends the `LogPack` and still truncates: the pack
count becomes 1, `temp_bytes` drops from 7 to 0 and the temp file is
emptied — nothing is aborted. -/
theorem copy_failure_still_rotates :
    (FileSplitAppenderData.send_pack ⟨100, "abcdefg".data, 7, 7, 0⟩ false).packs_sent = 1 ∧
    (FileSplitAppenderData.send_pack ⟨100, "abcdefg".data, 7, 7, 0⟩ false).temp_bytes = 0 ∧
    (FileSplitAppenderData.send_pack ⟨100, "abcdefg".data, 7, 7, 0⟩ false).file_content = [] := by
  decide

/-- C4 amended: `send_pack` discards the result of `std::fs::copy`, so a
failed copy aborts nothing: whether the copy succeeds or fails, exactly
one `LogPack` is enqueued, the temp file is truncated and `temp_bytes` is
reset to 0 — the data in the temp file at rotation time is dropped from
it either way. -/
theorem send_pack_ignores_copy_result (d : FileSplitAppenderData) (c c2 : Bool) :
    d.send_pack c = d.send_pack c2 ∧
    (d.send_pack c).packs_sent = d.packs_sent + 1 ∧
    (d.send_pack c).temp_bytes = 0 ∧
    (d.send_pack c).file_content = [] ∧
    (d.send_pack c).file_pos = 0 := by
  simp [FileSplitAppenderData.send_pack, FileSplitAppenderData.truncate]

/-- C9: `temp_bytes` and the cursor both equal the temp file length
(hence `temp_bytes ≤ file.len()`): the invariant is established by the
constructor (when its `metadata()` read succeeds) and preserved by
`truncate`, `send_pack`, and `do_log` for any write outcome a real
`File::write` can report. -/
theorem split_temp_bytes_invariant :
    (∀ max init, splitInv (FileSplitAppender.new max init true)) ∧
    (∀ d : FileSplitAppenderData, splitInv d → splitInv d.truncate) ∧
    (∀ (d : FileSplitAppenderData) (c : Bool), splitInv d → splitInv (d.send_pack c)) ∧
    (∀ (d : FileSplitAppenderData) (env : WriteEnv) (r : FastLogRecord),
      env.wf r → splitInv d → splitInv (FileSplitAppender.do_log d env r)) ∧
    (∀ d : FileSplitAppenderData, splitInv d → d.temp_bytes ≤ d.file_content.length) := by
  refine ⟨?_, ?_, ?_, ?_, ?_⟩
  · intro max init
    simp [FileSplitAppender.new, splitInv]
  · intro d _
    simp [FileSplitAppenderData.truncate, splitInv]
  · intro d c _
    simp [FileSplitAppenderData.send_pack, FileSplitAppenderData.truncate, splitInv]
  · intro d env r hwf hinv
    unfold FileSplitAppender.do_log
    split
    · simp [FileSplitAppenderData.send_pack, FileSplitAppenderData.truncate, splitInv]
    · cases hw : env.writeRes with
      | none => exact hinv
      | some w =>
        have hle : w ≤ r.formated.length := hwf w hw
        obtain ⟨h1, h2⟩ := hinv
        constructor <;>
          simp [h1, h2, List.take_length, List.drop_eq_nil_of_le (by omega : d.file_content.length ≤ d.file_content.length + w),
            List.length_take, Nat.min_eq_left hle]
  · intro d h
    rw [h.1]

/-- C9 witness: the invariant holds concretely after the constructor and
after a successful 1-byte write. -/
theorem split_temp_bytes_invariant_witness :
    splitInv (FileSplitAppender.do_log (FileSplitAppender.new 5 [] true) ⟨true, some 1⟩
      { command := Command.CommandRecord, args := "", formated := "x" }) :=
  split_temp_bytes_invariant.2.2.2.1 _ ⟨true, some 1⟩ _
    (by intro w hw; cases Option.some.inj hw; decide)
    (split_temp_bytes_invariant.1 5 [])

/-- C5 counterexample: starting from the uninitialized process state, a
first `init_custom_log` installs sender generation 0; a second call does
return an error, but it has already overwritten the registry slot with a
fresh sender generation 1 — the previously installed ingest sender and
filter are not left unchanged. -/
theorem second_init_replaces_sender :
    (init_custom_log false (init_custom_log false Registry.initial).1).2 = false ∧
    (init_custom_log false Registry.initial).1.slot = some 0 ∧
    (init_custom_log false (init_custom_log false Registry.initial).1).1.slot = some 1 := by
  decide

/-- C5 amended: once the facade is registered, a second `init_*` call
returns a registration error (from `log::set_logger`), but before failing
it has already replaced the installed ingest sender and filter in the
registry slot with freshly constructed ones. -/
theorem second_init_errors_but_swaps_slot (g : Registry)
    (hf : g.facade_set = true) (hlt : ∀ k, g.slot = some k → k < g.next_id) :
    (init_custom_log false g).2 = false ∧
    (init_custom_log false g).1.slot = some g.next_id ∧
    (init_custom_log false g).1.slot ≠ g.slot := by
  have h1 : init_custom_log false g
      = ({ g with slot := some g.next_id, next_id := g.next_id + 1 }, false) := by
    simp [init_custom_log, set_log, log_set_logger, hf]
  rw [h1]
  refine ⟨rfl, rfl, ?_⟩
  intro hcon
  cases hg : g.slot with
  | none => rw [hg] at hcon; exact Option.noConfusion hcon
  | some k =>
    rw [hg] at hcon
    have hk := hlt k hg
    have hk2 := Option.some.inj hcon
    omega

/-- C5 amended witness: the state right after a successful first
initialization. -/
theorem second_init_errors_but_swaps_slot_witness :
    (init_custom_log false ⟨some 0, 1, true⟩).2 = false ∧
    (init_custom_log false ⟨some 0, 1, true⟩).1.slot = some 1 ∧
    (init_custom_log false ⟨some 0, 1, true⟩).1.slot ≠ (⟨some 0, 1, true⟩ : Registry).slot :=
  second_init_errors_but_swaps_slot ⟨some 0, 1, true⟩ rfl
    (fun k hk => by cases Option.some.inj hk; decide)

lemma foldl_enumFrom_erase (nIdx : Nat) (pv : List String) :
    ∀ (k : Nat) (d : List String),
      (pv.enumFrom k).foldl (fun d ix => if nIdx ≤ ix.1 then d.erase ix.2 else d) d
        = (pv.drop (nIdx - k)).foldl (fun d x => d.erase x) d := by
  induction pv with
  | nil => intro k d; simp
  | cons x xs ih =>
    intro k d
    simp only [List.enumFrom, List.foldl]
    by_cases hk : nIdx ≤ k
    · rw [if_pos hk, ih (k + 1) (d.erase x),
        Nat.sub_eq_zero_of_le hk, Nat.sub_eq_zero_of_le (by omega)]
      rfl
    · rw [if_neg hk, ih (k + 1) d]
      have hs : nIdx - k = (nIdx - (k + 1)) + 1 := by omega
      rw [hs, List.drop_succ_cons]

lemma foldl_erase_eq_filter (ys : List String) :
    ∀ d : List String, d.Nodup →
      ys.foldl (fun d x => d.erase x) d = d.filter (fun a => decide (a ∉ ys)) := by
  induction ys with
  | nil => intro d _; simp
  | cons y ys ih =>
    intro d hd
    simp only [List.foldl]
    rw [ih (d.erase y) (hd.erase y), hd.erase_eq_filter y, List.filter_filter]
    apply List.filter_congr
    intro a _
    by_cases h1 : a = y <;> by_cases h2 : a ∈ ys <;> simp [h1, h2]

lemma nodup_subset_length {l l2 : List String} (h : l.Nodup) (hs : l ⊆ l2) :
    l.length ≤ l2.length := by
  calc l.length = l.toFinset.card := (List.toFinset_card_of_nodup h).symm
    _ ≤ l2.toFinset.card := Finset.card_le_card (fun x hx => by
        rw [List.mem_toFinset] at hx ⊢; exact hs hx)
    _ ≤ l2.length := l2.toFinset_card_le

/-- C6 counterexample: (i) the candidate filter is `ends_with
"temp.log")`, not equality with "temp.log": the entry "temptemp.log"
starts with "temp" and differs from "temp.log", so by the claim
`KeepNum(0)` must remove it, yet the code retains it; (ii) for negative
`n` the `n as usize` cast makes the threshold huge: by the claim
`KeepNum(-1)` must remove the snapshot "tempA.log" (index 0 ≥ -1), yet
the code retains it. -/
theorem keep_num_filter_counterexample :
    "temptemp.log" ∈ do_rolling_keep_num 0 ["temp.log", "temptemp.log"] ∧
    ( "temp".data.isPrefixOf "temptemp.log".data) = true ∧
    "temptemp.log" ≠ "temp.log" ∧
    do_rolling_keep_num (-1) ["tempA.log"] = ["tempA.log"] := by
  decide

/-- C6 amended: `KeepNum(n)` removes exactly the entries whose name
starts with "temp" and does **not end with** "temp.log" sitting at index
`≥ n as usize` (for `0 ≤ n < 2^63` that is index `≥ n`) after sorting by
file name descending; consequently at most `n as usize` such snapshot
entries remain in the directory. -/
theorem keep_num_removes_tail (n : Int) (dir : List String) (hnd : dir.Nodup) :
    do_rolling_keep_num n dir
      = dir.filter (fun a => decide (a ∉ (read_paths dir).drop (i64_as_usize n))) ∧
    ((do_rolling_keep_num n dir).filter keeps_for_rolling).length ≤ i64_as_usize n := by
  have hperm : (read_paths dir).Perm (dir.filter keeps_for_rolling) :=
    List.perm_insertionSort _ _
  have heq : do_rolling_keep_num n dir
      = dir.filter (fun a => decide (a ∉ (read_paths dir).drop (i64_as_usize n))) := by
    unfold do_rolling_keep_num
    rw [show (read_paths dir).enum = (read_paths dir).enumFrom 0 from rfl,
      foldl_enumFrom_erase (i64_as_usize n) (read_paths dir) 0 dir, Nat.sub_zero]
    exact foldl_erase_eq_filter _ dir hnd
  refine ⟨heq, ?_⟩
  have hsub : ((do_rolling_keep_num n dir).filter keeps_for_rolling)
      ⊆ (read_paths dir).take (i64_as_usize n) := by
    intro a ha
    rw [heq, List.mem_filter] at ha
    obtain ⟨ha2, hkeep⟩ := ha
    rw [List.mem_filter] at ha2
    obtain ⟨hdir, hnotdrop⟩ := ha2
    have hnd3 : a ∉ (read_paths dir).drop (i64_as_usize n) := of_decide_eq_true hnotdrop
    have hmem_pv : a ∈ read_paths dir :=
      hperm.mem_iff.mpr (List.mem_filter.mpr ⟨hdir, hkeep⟩)
    have hsplit : a ∈ (read_paths dir).take (i64_as_usize n)
        ++ (read_paths dir).drop (i64_as_usize n) := by
      rw [List.take_append_drop]; exact hmem_pv
    rcases List.mem_append.mp hsplit with h | h
    · exact h
    · exact absurd h hnd3
  have hnd2 : ((do_rolling_keep_num n dir).filter keeps_for_rolling).Nodup := by
    rw [heq]; exact (hnd.filter _).filter _
  calc ((do_rolling_keep_num n dir).filter keeps_for_rolling).length
      ≤ ((read_paths dir).take (i64_as_usize n)).length := nodup_subset_length hnd2 hsub
    _ ≤ i64_as_usize n := List.length_take_le _ _

/-- C6 amended witness: two snapshots, `KeepNum(1)` keeps the
lexicographically larger one. -/
theorem keep_num_removes_tail_witness :
    do_rolling_keep_num 1 ["tempB.log", "tempA.log"]
      = ["tempB.log", "tempA.log"].filter
          (fun a => decide (a ∉ (read_paths ["tempB.log", "tempA.log"]).drop (i64_as_usize 1))) ∧
    ((do_rolling_keep_num 1 ["tempB.log", "tempA.log"]).filter keeps_for_rolling).length
      ≤ i64_as_usize 1 :=
  keep_num_removes_tail 1 ["tempB.log", "tempA.log"] (by decide)

lemma doPack_succ (w : PackWorld) (retryN : Int) (pe : Bool) (fuel oi pi : Nat) :
    doPack w retryN pe (fuel + 1) oi pi
      = if pe = true then some (Except.error (), oi, pi)
        else if w.opens oi = false then some (Except.error (), oi + 1, pi)
        else if (w.attempts pi).isOk = false ∧ 0 < retryN then
          match retryLoopAux (doPack w retryN pe fuel) retryN fuel 1 (oi + 1) (pi + 1) with
          | none => none
          | some p => some (Except.ok false, p.1, p.2)
        else some (Except.ok (match w.attempts pi with | .ok b => b | .error _ => false),
          oi + 1, pi + 1) := rfl

lemma saver_removes_eq_true_iff (x : Option (Except Unit Bool × Nat × Nat)) :
    saver_removes x = true ↔ ∃ o2 p2, x = some (Except.ok true, o2, p2) := by
  cases x with
  | none => simp [saver_removes]
  | some v =>
    obtain ⟨res, o2, p2⟩ := v
    cases res with
    | error e => simp [saver_removes]
    | ok b => cases b <;> simp [saver_removes]

/-- C7: the saver thread removes the snapshot exactly when `do_pack`
returns `Ok(true)`; on `Ok(false)`, on `Err`, and on a spun-out
recursion the snapshot stays on disk; in particular when every pack
attempt fails (retries exhausted without success) the snapshot is always
retained. -/
theorem saver_removes_iff_ok_true (w : PackWorld) (retryN : Int) (pe : Bool)
    (fuel oi pi : Nat) :
    (saver_removes (doPack w retryN pe fuel oi pi) = true ↔
      ∃ o2 p2, doPack w retryN pe fuel oi pi = some (Except.ok true, o2, p2)) ∧
    ((∀ i, (w.attempts i).isOk = false) →
      saver_removes (doPack w retryN pe fuel oi pi) = false) := by
  refine ⟨saver_removes_eq_true_iff _, ?_⟩
  intro hall
  cases fuel with
  | zero => rfl
  | succ fuel =>
    rw [doPack_succ]
    by_cases hpe : pe = true
    · simp [hpe, saver_removes]
    · rw [if_neg hpe]
      by_cases hop : w.opens oi = false
      · simp [hop, saver_removes]
      · rw [if_neg hop]
        by_cases hc : (w.attempts pi).isOk = false ∧ 0 < retryN
        · rw [if_pos hc]
          cases retryLoopAux (doPack w retryN pe fuel) retryN fuel 1 (oi + 1) (pi + 1) with
          | none => rfl
          | some p => rfl
        · cases hA : w.attempts pi with
          | ok b =>
            exfalso
            have hx := hall pi
            rw [hA] at hx
            simp [Except.isOk, Except.toBool] at hx
          | error e =>
            have hr : ¬(0 < retryN) := fun h => hc ⟨by rw [hA]; rfl, h⟩
            rw [if_neg (fun hh => hr hh.2)]
            rfl

/-- C7 witness: with a packer whose attempts always fail and a retry
budget of 0, the snapshot is retained. -/
theorem saver_removes_iff_ok_true_witness :
    saver_removes
        (doPack ⟨fun _ => true, fun _ => Except.error ()⟩ 0 false 3 0 0) = false :=
  (saver_removes_iff_ok_true ⟨fun _ => true, fun _ => Except.error ()⟩ 0 false 3 0 0).2
    (fun _ => rfl)

/-- C8 counterexample: `retry() = 1`, the snapshot always opens, and the
first two pack attempts fail before the third succeeds.  The claim allows
at most `1 + retry() = 2` attempts, but `do_pack` recurses on every
failed attempt and consumes 3 attempts (final attempt index 3), still
reporting `Ok(false)` from the failure of the first attempt. -/
theorem retry_count_exceeds_bound :
    doPack ⟨fun _ => true, fun i => if i = 2 then Except.ok true else Except.error ()⟩
        1 false 10 0 0
      = some (Except.ok false, 3, 3) ∧ ¬((3 : Nat) ≤ 1 + 1) :=
  ⟨rfl, by omega⟩

/-- C8 amended: when a pack attempt fails and `packer.retry() > 0`,
`do_pack` does not stop after `retry()` extra attempts: every failed
attempt recurses into a fresh `do_pack`, so (with the snapshot always
openable) attempts continue until one succeeds, regardless of the value
of `retry()` — the first success at attempt index `m` means exactly
`m - pi` additional attempts after the first, which exceeds `retry()`
whenever `m - pi > retry()`. -/
theorem do_pack_retries_until_success (w : PackWorld) (retryN : Int) (m : Nat)
    (hretry : 0 < retryN) (hopen : ∀ i, w.opens i = true)
    (hsucc : (w.attempts m).isOk = true) :
    ∀ (fuel pi oi : Nat), pi ≤ m → m - pi < fuel →
      (∀ i, pi ≤ i → i < m → (w.attempts i).isOk = false) →
      ∃ res : Except Unit Bool, res.isOk = true ∧
        doPack w retryN false fuel oi pi = some (res, oi + (m - pi) + 1, m + 1) := by
  intro fuel
  induction fuel with
  | zero => intro pi oi h1 h2 _; omega
  | succ fuel ih =>
    intro pi oi hpm hfuel hfail
    by_cases hpe : pi = m
    · subst hpe
      refine ⟨Except.ok (match w.attempts pi with | .ok b => b | .error _ => false),
        rfl, ?_⟩
      have hnc : ¬((w.attempts pi).isOk = false ∧ 0 < retryN) := by
        rw [hsucc]; simp
      rw [doPack_succ, if_neg (by simp), if_neg (by simp [hopen oi]), if_neg hnc,
        Nat.sub_self]
    · have hlt : pi < m := lt_of_le_of_ne hpm hpe
      have hfl : 1 ≤ fuel := by omega
      obtain ⟨lf, rfl⟩ : ∃ lf, fuel = lf + 1 := ⟨fuel - 1, by omega⟩
      obtain ⟨res2, hres2ok, hres2⟩ := ih (pi + 1) (oi + 1) (by omega) (by omega)
        (fun i hi1 hi2 => hfail i (by omega) hi2)
      have hcond : (w.attempts pi).isOk = false ∧ 0 < retryN :=
        ⟨hfail pi (le_refl pi) hlt, hretry⟩
      have hloop : retryLoopAux (doPack w retryN false (lf + 1)) retryN (lf + 1) 1
          (oi + 1) (pi + 1) = some ((oi + 1) + (m - (pi + 1)) + 1, m + 1) := by
        simp [retryLoopAux, hres2, hres2ok]
      refine ⟨Except.ok false, rfl, ?_⟩
      have harith : (oi + 1) + (m - (pi + 1)) + 1 = oi + (m - pi) + 1 := by omega
      rw [doPack_succ, if_neg (by simp), if_neg (by simp [hopen oi]), if_pos hcond, hloop]
      simp [harith]

/-- C8 amended witness: first attempt fails, second succeeds, retry
budget 5: the pack is re-attempted once more and succeeds at attempt
index 2. -/
theorem do_pack_retries_until_success_witness :
    ∃ res : Except Unit Bool, res.isOk = true ∧
      doPack ⟨fun _ => true, fun i => if i = 1 then Except.ok true else Except.error ()⟩
          5 false 3 0 0
        = some (res, 0 + (1 - 0) + 1, 1 + 1) :=
  do_pack_retries_until_success
    ⟨fun _ => true, fun i => if i = 1 then Except.ok true else Except.error ()⟩
    5 1 (by omega) (fun _ => rfl) rfl 3 0 0 (by omega) (by omega)
    (fun i h1 h2 => by
      have : i = 0 := by omega
      subst this
      rfl)

end FastLog
